import Mathlib

/-!
# Verification of the event-aggregation pipeline (src/index.js)

Shallow embedding of the scraping/aggregation core: the per-source mapping
functions of the six adapters, the `Promise.allSettled` aggregator of
`getAllEvents`, the title-based de-duplication pass and the date sort.

Modelling conventions:
* A JavaScript object field that may be `undefined`/`null` is an `Option`.
* A fulfilled/rejected settled promise is `Except String`.
* A thrown `TypeError` inside `getAllEvents` is the `Except.error` branch of
  `dedupe` (the JS function's returned promise rejects in that case).
* `new Date(s)` parsing is modelled on its ISO `YYYY-MM-DD` subset by
  `parseDate`, which returns an order-isomorphic encoding of the calendar
  date (the sort comparator only inspects the sign of a difference, so any
  order-isomorphic encoding is adequate); every other string is modelled as
  an invalid date (`none`).
* `Array.prototype.sort` is modelled as a stable sort (stability is mandated
  by ECMAScript 2019+); the comparator of src/index.js lines 357-361 is
  embedded exactly, with a NaN comparator result treated as `+0` as the
  ECMAScript `SortCompare` operation prescribes. Where the comparator is
  inconsistent the engine order is implementation-defined; see `sortByDate`
  for how statements are scoped to instances the engine determines.
-/

namespace EventAutomation

/-- Event record shape produced by the adapters of src/index.js. Fields that
some adapters omit or that JS leaves `undefined`/`null` are `Option`; `tags`
may hold `undefined` entries (Unstop pushes `h.type` unchecked). -/
structure Event where
  website : String
  event_name : Option String := none
  event_link : Option String := none
  description : Option String := none
  start_date : Option String := none
  end_date : Option String := none
  location : String := ""
  tags : List (Option String) := []
  prize : Option String := none
  source : Option String := none
  deriving Repr, DecidableEq

/-- JS truthiness test for a string-or-nullish value: `undefined`, `null`
and the empty string are falsy. -/
def jsFalsy (o : Option String) : Bool :=
  match o with
  | none => true
  | some s => s.isEmpty

/-- JS `x || null` on a string-or-nullish value: a falsy value becomes null. -/
def jsOrNull (o : Option String) : Option String :=
  match o with
  | none => none
  | some s => if s.isEmpty then none else some s

/-- Split a character list at every occurrence of a single separator
character (the list-level counterpart of `split("-")`). -/
def splitOnChar (sep : Char) : List Char → List (List Char)
  | [] => [[]]
  | c :: rest =>
    let r := splitOnChar sep rest
    if c = sep then [] :: r
    else
      match r with
      | [] => [[c]]
      | t :: ts => (c :: t) :: ts

/-- Characters of a list up to (excluding) the first occurrence of the
separator sequence `sep` — the list-level counterpart of `split(sep)[0]`. -/
def firstSegment (sep : List Char) : List Char → List Char
  | [] => []
  | c :: rest =>
    if sep.isPrefixOf (c :: rest) then []
    else c :: firstSegment sep rest

/-- Decimal value of a digit character, `none` for a non-digit. -/
def charDigit? (c : Char) : Option Nat :=
  if '0' ≤ c ∧ c ≤ '9' then some (c.toNat - '0'.toNat) else none

/-- Accumulating decimal reading of a digit list. -/
def decDigitsAux : List Char → Nat → Option Nat
  | [], acc => some acc
  | c :: rest, acc =>
    match charDigit? c with
    | some d => decDigitsAux rest (acc * 10 + d)
    | none => none

/-- Decimal value of a non-empty all-digit character list. -/
def decDigits? (l : List Char) : Option Nat :=
  match l with
  | [] => none
  | _ => decDigitsAux l 0

/-- Gregorian leap-year test, as used by the engine's ISO date validation. -/
def isLeapYear (y : Nat) : Bool :=
  (y % 4 == 0 && y % 100 != 0) || y % 400 == 0

/-- Number of days of month `m` of year `y`. -/
def daysInMonth (y m : Nat) : Nat :=
  if m == 2 then (if isLeapYear y then 29 else 28)
  else if m == 4 || m == 6 || m == 9 || m == 11 then 30
  else 31

/-- Model of `new Date(s)` restricted to the ISO `YYYY-MM-DD` format: a
valid date yields an order-isomorphic integer encoding, anything else is an
invalid date (`none`). -/
def parseDate (s : String) : Option Int :=
  match splitOnChar '-' s.toList with
  | [ys, ms, ds] =>
    match decDigits? ys, decDigits? ms, decDigits? ds with
    | some y, some m, some d =>
      if ys.length = 4 ∧ ms.length = 2 ∧ ds.length = 2 ∧
          1 ≤ m ∧ m ≤ 12 ∧ 1 ≤ d ∧ d ≤ daysInMonth y m then
        some (((y * 13 + m) * 32 + d : Nat) : Int)
      else none
    | _, _, _ => none
  | _ => none

/-- Model of `d ? new Date(d).toISOString().split('T')[0] : null` for a
present string `d`: a falsy or parseable `d` behaves as in the engine (a
parseable ISO date round-trips to itself). On a non-empty unparseable
string the engine instead raises a `RangeError` from `toISOString`, which
aborts the whole enclosing mapping and lands in the adapter catch (Devpost
falls to its fallback transport; Dorahacks and HackerEarth return `[]`);
this model returns `none` there. Statements about a date-converting
mapping are therefore either evaluated only on absent/parseable date
fields, where model and engine agree, or claim an upper bound on the
result length, which the abort path (an empty result) also satisfies. -/
def jsDateToIso (s : String) : Option String :=
  if (parseDate s).isSome then some s else none

/-- Title normalization of the dedup pass (src/index.js line 349):
`title.toLowerCase().replace(/[^a-z0-9]/g, '')`. `String.toLower` models
the engine's `toLowerCase` (they agree on ASCII). -/
def normalizeTitle (s : String) : String :=
  String.mk ((s.toList.map Char.toLower).filter fun c =>
    decide (('a' ≤ c ∧ c ≤ 'z') ∨ ('0' ≤ c ∧ c ≤ '9')))

/-- Normalized dedup key of an event (`""` standing in for a missing title;
the dedup code itself throws on a missing title before using the key). -/
def eventKey (e : Event) : String :=
  normalizeTitle (e.event_name.getD "")

/-- Loop of the dedup pass (src/index.js lines 346-354): walk the events in
order, keep an event iff its normalized title key is unseen. Accessing
`event.event_name.toLowerCase()` when the title is `undefined` throws a
`TypeError`, modelled as the error branch. -/
def dedupeGo : List Event → List String → List Event → Except String (List Event)
  | [], _, acc => .ok acc.reverse
  | e :: rest, seen, acc =>
    match e.event_name with
    | none => .error "TypeError: Cannot read properties of undefined"
    | some t =>
      let k := normalizeTitle t
      if k ∈ seen then dedupeGo rest seen acc
      else dedupeGo rest (k :: seen) (e :: acc)

/-- Dedup pass over the concatenated event list. -/
def dedupe (l : List Event) : Except String (List Event) :=
  dedupeGo l [] []

/-- Parsed start date of an event, when the field is present and parseable. -/
def parsedStart (e : Event) : Option Int :=
  match e.start_date with
  | none => none
  | some s => parseDate s

/-- Whether the sort comparator's `!a.start_date` test fires: `null`,
absent, or empty-string start dates are falsy. -/
def startFalsy (e : Event) : Bool :=
  jsFalsy e.start_date

/-- The sort comparator of src/index.js lines 357-361, as the integer the
engine's sort consumes. `new Date(x) - new Date(y)` is NaN when either date
is invalid, and ECMAScript SortCompare treats a NaN comparator result as
`+0`; hence the catch-all `0` arm. -/
def jsSortCompare (a b : Event) : Int :=
  if startFalsy a then 1
  else if startFalsy b then -1
  else
    match parsedStart a, parsedStart b with
    | some x, some y => x - y
    | _, _ => 0

/-- Stable insertion of `x` (arriving after every element of `acc`) into the
already-processed list `acc`: `x` is placed before the first element it
compares strictly less than, hence after every element it ties with. -/
def insertEvent (acc : List Event) (x : Event) : List Event :=
  match acc with
  | [] => [x]
  | y :: ys => if jsSortCompare x y < 0 then x :: y :: ys else y :: insertEvent ys x

/-- Model of `uniqueEvents.sort(comparator)`: a stable sort driven by
`jsSortCompare`, realized as left-to-right stable insertion. The comparator
is not a consistent comparison function (a NaN result is a tie between a
dated and an unparseably dated event, and two falsy-dated events each
compare greater than the other), so ECMAScript leaves the resulting order
implementation-defined where those cases bear on it; statements that
depend on the relative order of validly dated events are therefore proved
only for inputs free of non-empty unparseable dates, and the remaining
statements are confined to behavior every stable realization — in
particular the engine — shares (2-element instances, the falsy events
sinking behind all truthy ones in input order, permutation, and the
output being a fixed point). -/
def sortByDate (l : List Event) : List Event :=
  l.foldl insertEvent []

/-- Success/failure counters kept by `getAllEvents` (src/index.js line 331). -/
structure AggStats where
  success : Nat
  failed : Nat
  deriving Repr, DecidableEq

/-- One step of the `results.forEach` of src/index.js lines 334-343: a
fulfilled adapter with at least one event contributes its events and a
success tick, anything else (rejected, or fulfilled empty) a failure tick. -/
def aggStep : (List Event × AggStats) → Except String (List Event) → (List Event × AggStats)
  | (acc, st), .ok evs =>
    if 0 < evs.length then (acc ++ evs, ⟨st.success + 1, st.failed⟩)
    else (acc, ⟨st.success, st.failed + 1⟩)
  | (acc, st), .error _ => (acc, ⟨st.success, st.failed + 1⟩)

/-- Fold of the settled adapter results, in registration order. -/
def aggregate (results : List (Except String (List Event))) : List Event × AggStats :=
  results.foldl aggStep ([], ⟨0, 0⟩)

/-- Whether an adapter outcome contributes events (fulfilled and nonempty). -/
def isContributing (r : Except String (List Event)) : Bool :=
  match r with
  | .ok evs => decide (0 < evs.length)
  | .error _ => false

/-- Events an adapter outcome adds to the combined list. -/
def contribution (r : Except String (List Event)) : List Event :=
  match r with
  | .ok evs => evs
  | .error _ => []

/-- `getAllEvents` (src/index.js lines 317-374) after the `allSettled`
join, applied to the six settled adapter outcomes in registration order:
concatenate contributing results, dedupe, sort, return. A `TypeError`
thrown by the dedup loop rejects the function's promise (error branch). -/
def getAllEvents (r1 r2 r3 r4 r5 r6 : Except String (List Event)) : Except String (List Event) :=
  match dedupe (aggregate [r1, r2, r3, r4, r5, r6]).1 with
  | .ok uniq => .ok (sortByDate uniq)
  | .error e => .error e

/-- The statistics `getAllEvents` reports for the same six outcomes (the JS
code computes them in the same forEach that builds the combined list). -/
def getAllEventsStats (r1 r2 r3 r4 r5 r6 : Except String (List Event)) : AggStats :=
  (aggregate [r1, r2, r3, r4, r5, r6]).2

/-- An item of the Devpost RSS feed as `rss-parser` delivers it; every
field a feed may omit is optional. -/
structure RssItem where
  title : Option String := none
  link : Option String := none
  contentSnippet : Option String := none
  pubDate : Option String := none
  deriving Repr, DecidableEq

/-- Mapping of the Devpost RSS path (src/index.js lines 20-29):
`feed.items.slice(0, 20).map(...)`. Note there is no title filter. -/
def devpostRssMap (items : List RssItem) : List Event :=
  (items.take 20).map fun item =>
    { website := "Devpost"
      event_name := item.title
      event_link := item.link
      description := some ((item.contentSnippet.getD "").take 200)
      start_date := match item.pubDate with
        | some d => jsDateToIso d
        | none => none
      location := "Online"
      tags := [some "Hackathon"]
      source := some "rss" }

/-- A hackathon record of the Devpost fallback JSON API. -/
structure ApiHack where
  title : Option String := none
  url : Option String := none
  submission_period_dates : Option String := none
  location : Option String := none
  deriving Repr, DecidableEq

/-- Mapping of the Devpost API fallback (src/index.js lines 45-52):
`data.hackathons?.slice(0, 20).map(...)`. -/
def devpostApiMap (hs : List ApiHack) : List Event :=
  (hs.take 20).map fun h =>
    { website := "Devpost"
      event_name := h.title
      event_link := h.url
      start_date := match h.submission_period_dates with
        | some s => jsOrNull (some (String.mk (firstSegment [' ', '-', ' '] s.toList)))
        | none => none
      location := match h.location with
        | some s => if s.isEmpty then "Online" else s
        | none => "Online"
      tags := [some "Hackathon"] }

/-- Devpost adapter (src/index.js lines 15-61) over its two transports:
RSS first, the JSON API only when RSS failed, `[]` when both failed. -/
def scrapeDevpost (rss : Except String (List RssItem))
    (api : Except String (Option (List ApiHack))) : List Event :=
  match rss with
  | .ok items => devpostRssMap items
  | .error _ =>
    match api with
    | .ok (some hs) => devpostApiMap hs
    | .ok none => []
    | .error _ => []

/-- An opportunity record of the Unstop search API (`data.data.data[i]`). -/
structure UnstopItem where
  title : Option String := none
  public_url : String := ""
  start_date : Option String := none
  end_date : Option String := none
  orgName : Option String := none
  type : Option String := none
  prize_money : Option String := none
  deriving Repr, DecidableEq

/-- Mapping of the Unstop adapter (src/index.js lines 83-92):
`data.data?.data?.map(...)`. No title filter and no output cap — only the
request asks for 20 per page. -/
def unstopMap (items : List UnstopItem) : List Event :=
  items.map fun h =>
    { website := "Unstop"
      event_name := h.title
      event_link := some ("https://unstop.com" ++ h.public_url)
      start_date := jsOrNull h.start_date
      end_date := jsOrNull h.end_date
      location := match h.orgName with
        | some s => if s.isEmpty then "Various" else s
        | none => "Various"
      tags := [some "Hackathon", h.type]
      prize := jsOrNull h.prize_money }

/-- Unstop adapter over its transport outcome. -/
def scrapeUnstop (t : Except String (Option (List UnstopItem))) : List Event :=
  match t with
  | .ok (some items) => unstopMap items
  | .ok none => []
  | .error _ => []

/-- A bounty node of the Dorahacks GraphQL response. -/
structure DoraNode where
  title : Option String := none
  slug : String := ""
  description : Option String := none
  startTime : Option String := none
  endTime : Option String := none
  totalReward : Option String := none
  deriving Repr, DecidableEq

/-- Mapping of the Dorahacks adapter (src/index.js lines 137-148):
`bounties.map(...)` — no output cap (only the GraphQL query asks for 20).
When every present `startTime`/`endTime` is falsy or parseable the engine
completes this mapping one node to one event, as modelled; a non-empty
unparseable date instead raises inside the map and the adapter catch
returns `[]` (see `jsDateToIso`), so per-item facts are only claimed on
date-clean payloads. -/
def dorahacksMap (nodes : List DoraNode) : List Event :=
  nodes.map fun node =>
    { website := "Dorahacks"
      event_name := node.title
      event_link := some ("https://dorahacks.io/buidl/" ++ node.slug)
      description := node.description.map (fun s => s.take 200)
      start_date := match node.startTime with
        | some d => jsDateToIso d
        | none => none
      end_date := match node.endTime with
        | some d => jsDateToIso d
        | none => none
      location := "Online"
      tags := [some "Hackathon", some "Web3"]
      prize := node.totalReward }

/-- Dorahacks adapter over its transport outcome
(`data.data?.bountiesList?.edges || []`). -/
def scrapeDorahacks (t : Except String (Option (List DoraNode))) : List Event :=
  match t with
  | .ok (some nodes) => dorahacksMap nodes
  | .ok none => []
  | .error _ => []

/-- A card found in the rendered Devfolio DOM: `titleText` is the trimmed
text of the title element when one exists (the text itself may be empty),
and similarly for the other queried elements. -/
structure DevfolioCard where
  titleText : Option String := none
  link : Option String := none
  dateText : Option String := none
  locText : Option String := none
  deriving Repr, DecidableEq

/-- Mapping of the Devfolio adapter (src/index.js lines 208-233): at most
the first 20 cards, a card contributing iff a title element exists. -/
def devfolioMap (cards : List DevfolioCard) : List Event :=
  (cards.take 20).filterMap fun c =>
    match c.titleText with
    | none => none
    | some t => some
        { website := "Devfolio"
          event_name := some t
          event_link := c.link
          start_date := c.dateText
          location := c.locText.getD "Check website"
          tags := [some "Hackathon"] }

/-- Devfolio adapter over its rendered-page transport outcome. -/
def scrapeDevfolio (t : Except String (List DevfolioCard)) : List Event :=
  match t with
  | .ok cards => devfolioMap cards
  | .error _ => []

/-- An event record of the HackerEarth events endpoint. -/
structure HEItem where
  title : Option String := none
  url : Option String := none
  start_tz : Option String := none
  end_tz : Option String := none
  deriving Repr, DecidableEq

/-- Mapping of the HackerEarth adapter (src/index.js lines 256-264):
`data.response?.slice(0, 20).map(...)`. -/
def heMap (items : List HEItem) : List Event :=
  (items.take 20).map fun e =>
    { website := "HackerEarth"
      event_name := e.title
      event_link := e.url
      start_date := match e.start_tz with
        | some d => jsDateToIso d
        | none => none
      end_date := match e.end_tz with
        | some d => jsDateToIso d
        | none => none
      location := "Online"
      tags := [some "Coding", some "Competition"] }

/-- HackerEarth adapter over its transport outcome. -/
def scrapeHackerEarth (t : Except String (Option (List HEItem))) : List Event :=
  match t with
  | .ok (some items) => heMap items
  | .ok none => []
  | .error _ => []

/-- A `.event` card of the MLH page; `title`, `date` and `location` come
from `.text().trim()` and are plain (possibly empty) strings, `link` from
`attr('href')` and may be absent. -/
structure MlhCard where
  title : String := ""
  link : Option String := none
  date : String := ""
  location : String := ""
  deriving Repr, DecidableEq

/-- Mapping of the MLH adapter (src/index.js lines 287-304): the first 20
cards, keeping a card iff its title text is truthy (non-empty). Note the
raw `date` string is passed through unchanged, including the empty string. -/
def mlhMap (cards : List MlhCard) : List Event :=
  ((cards.take 20).filter fun c => !c.title.isEmpty).map fun c =>
    { website := "MLH"
      event_name := some c.title
      event_link := match c.link with
        | some l => if l.isEmpty then none else some ("https://mlh.io" ++ l)
        | none => none
      start_date := some c.date
      location := if c.location.isEmpty then "Various" else c.location
      tags := [some "Hackathon", some "Student"] }

/-- MLH adapter over its transport outcome. -/
def getMLHEvents (t : Except String (List MlhCard)) : List Event :=
  match t with
  | .ok cards => mlhMap cards
  | .error _ => []

/-! ## Properties of the dedup pass -/

instance {ε α : Type} [DecidableEq ε] [DecidableEq α] : DecidableEq (Except ε α) := fun x y =>
  match x, y with
  | .ok a, .ok b =>
    if h : a = b then .isTrue (congrArg Except.ok h)
    else .isFalse (fun hc => h (Except.ok.inj hc))
  | .ok _, .error _ => .isFalse (fun hc => Except.noConfusion hc)
  | .error _, .ok _ => .isFalse (fun hc => Except.noConfusion hc)
  | .error e, .error f =>
    if h : e = f then .isTrue (congrArg Except.error h)
    else .isFalse (fun hc => h (Except.error.inj hc))

theorem dedupeGo_spec (l : List Event) : ∀ (seen : List String) (acc : List Event),
    (∀ e ∈ l, (e.event_name).isSome = true) →
    ∃ out, dedupeGo l seen acc = Except.ok (acc.reverse ++ out) ∧
      List.Sublist out l ∧
      (∀ e' ∈ out, eventKey e' ∉ seen) ∧
      out.Pairwise (fun a b => eventKey a ≠ eventKey b) ∧
      (∀ e ∈ l, eventKey e ∈ seen ∨ ∃ e' ∈ out, eventKey e' = eventKey e) ∧
      (∀ e' ∈ out, l.find? (fun e => eventKey e == eventKey e') = some e') := by
  induction l with
  | nil =>
    intro seen acc _
    exact ⟨[], by simp [dedupeGo], by simp, by simp, by simp, by simp, by simp⟩
  | cons e rest ih =>
    intro seen acc h
    obtain ⟨t, ht⟩ := Option.isSome_iff_exists.mp (h e (List.mem_cons_self e rest))
    have hkey : normalizeTitle t = eventKey e := by simp [eventKey, ht]
    by_cases hmem : normalizeTitle t ∈ seen
    · obtain ⟨out, h1, h2, h3, h4, h5, h6⟩ :=
        ih seen acc (fun x hx => h x (List.mem_cons_of_mem e hx))
      refine ⟨out, ?_, h2.cons e, h3, h4, ?_, ?_⟩
      · simpa [dedupeGo, ht, hmem] using h1
      · intro x hx
        rcases List.mem_cons.mp hx with rfl | hx
        · exact Or.inl (hkey ▸ hmem)
        · exact h5 x hx
      · intro e' he'
        have hne : ¬ ((eventKey e == eventKey e') = true) := by
          simp only [beq_iff_eq]
          intro hEq
          exact h3 e' he' (hEq ▸ hkey ▸ hmem)
        have hstep : List.find? (fun x => eventKey x == eventKey e') (e :: rest)
            = List.find? (fun x => eventKey x == eventKey e') rest :=
          List.find?_cons_of_neg rest hne
        rw [hstep]
        exact h6 e' he'
    · obtain ⟨out, h1, h2, h3, h4, h5, h6⟩ :=
        ih (normalizeTitle t :: seen) (e :: acc)
          (fun x hx => h x (List.mem_cons_of_mem e hx))
      refine ⟨e :: out, ?_, h2.cons₂ e, ?_, ?_, ?_, ?_⟩
      · rw [show dedupeGo (e :: rest) seen acc
              = dedupeGo rest (normalizeTitle t :: seen) (e :: acc) from by
            simp [dedupeGo, ht, hmem]]
        rw [h1]
        simp
      · intro x hx
        rcases List.mem_cons.mp hx with rfl | hx
        · exact hkey ▸ hmem
        · intro hc
          exact h3 x hx (List.mem_cons_of_mem _ hc)
      · refine List.pairwise_cons.mpr ⟨?_, h4⟩
        intro b hb hEq
        apply h3 b hb
        rw [← hEq, ← hkey]
        exact List.mem_cons_self _ _
      · intro x hx
        rcases List.mem_cons.mp hx with rfl | hx
        · exact Or.inr ⟨x, List.mem_cons_self x out, rfl⟩
        · rcases h5 x hx with hs | ⟨e', he', hk⟩
          · rcases List.mem_cons.mp hs with hEq | hs
            · refine Or.inr ⟨e, List.mem_cons_self e out, ?_⟩
              rw [← hkey, hEq]
            · exact Or.inl hs
          · exact Or.inr ⟨e', List.mem_cons_of_mem e he', hk⟩
      · intro e' he'
        rcases List.mem_cons.mp he' with rfl | he'
        · exact List.find?_cons_of_pos rest (by simp)
        · have hne : ¬ ((eventKey e == eventKey e') = true) := by
            simp only [beq_iff_eq]
            intro hEq
            apply h3 e' he'
            rw [← hEq, ← hkey]
            exact List.mem_cons_self _ _
          have hstep : List.find? (fun x => eventKey x == eventKey e') (e :: rest)
              = List.find? (fun x => eventKey x == eventKey e') rest :=
            List.find?_cons_of_neg rest hne
          rw [hstep]
          exact h6 e' he'

theorem dedupeGo_names (l : List Event) : ∀ (seen : List String) (acc out : List Event),
    dedupeGo l seen acc = Except.ok out → ∀ e ∈ l, (e.event_name).isSome = true := by
  induction l with
  | nil =>
    intro seen acc out _ e he
    exact absurd he (List.not_mem_nil e)
  | cons e rest ih =>
    intro seen acc out hok x hx
    cases ht : e.event_name with
    | none => simp [dedupeGo, ht] at hok
    | some t =>
      rcases List.mem_cons.mp hx with rfl | hx
      · simp [ht]
      · by_cases hmem : normalizeTitle t ∈ seen
        · exact ih seen acc out (by simpa [dedupeGo, ht, hmem] using hok) x hx
        · exact ih (normalizeTitle t :: seen) (e :: acc) out
            (by simpa [dedupeGo, ht, hmem] using hok) x hx

theorem dedupeGo_of_nodup (l : List Event) : ∀ (seen : List String) (acc : List Event),
    (∀ e ∈ l, (e.event_name).isSome = true) →
    l.Pairwise (fun a b => eventKey a ≠ eventKey b) →
    (∀ e ∈ l, eventKey e ∉ seen) →
    dedupeGo l seen acc = Except.ok (acc.reverse ++ l) := by
  induction l with
  | nil =>
    intro seen acc _ _ _
    simp [dedupeGo]
  | cons e rest ih =>
    intro seen acc h hp hs
    obtain ⟨t, ht⟩ := Option.isSome_iff_exists.mp (h e (List.mem_cons_self e rest))
    have hkey : normalizeTitle t = eventKey e := by simp [eventKey, ht]
    have hmem : normalizeTitle t ∉ seen := hkey ▸ hs e (List.mem_cons_self e rest)
    have hrest := ih (normalizeTitle t :: seen) (e :: acc)
      (fun x hx => h x (List.mem_cons_of_mem e hx))
      (List.pairwise_cons.mp hp).2
      (by
        intro x hx hin
        rcases List.mem_cons.mp hin with hEq | hin
        · exact absurd ((hkey ▸ hEq).symm) ((List.pairwise_cons.mp hp).1 x hx)
        · exact hs x (List.mem_cons_of_mem e hx) hin)
    rw [show dedupeGo (e :: rest) seen acc
          = dedupeGo rest (normalizeTitle t :: seen) (e :: acc) from by
        simp [dedupeGo, ht, hmem]]
    rw [hrest]
    simp

/-- C3: the dedup step keys each event by its lowercased, non-alphanumeric-
stripped title, keeps exactly the first event in input order for each
distinct key (`find?` returns the first match), discards every later event
with the same key, and the keys of the output are pairwise distinct.
Stated for inputs whose events all carry a title, since the code throws on
a missing one. -/
theorem dedupe_keeps_first_per_key (l : List Event)
    (h : ∀ e ∈ l, (e.event_name).isSome = true) :
    ∃ out, dedupe l = Except.ok out ∧
      List.Sublist out l ∧
      out.Pairwise (fun a b => eventKey a ≠ eventKey b) ∧
      (∀ e ∈ l, ∃ e' ∈ out, eventKey e' = eventKey e) ∧
      (∀ e' ∈ out, l.find? (fun e => eventKey e == eventKey e') = some e') := by
  obtain ⟨out, h1, h2, _h3, h4, h5, h6⟩ := dedupeGo_spec l [] [] h
  refine ⟨out, ?_, h2, h4, ?_, h6⟩
  · simpa [dedupe] using h1
  · intro e he
    rcases h5 e he with hin | hout
    · exact absurd hin (List.not_mem_nil _)
    · exact hout

def evAiHack : Event :=
  { website := "Devpost", event_name := some "AI Hack",
    start_date := some "2025-03-01", location := "Online" }

def evAiHackDup : Event :=
  { website := "Unstop", event_name := some "AI-Hack!!", location := "Various" }

def evWeb3Jam : Event :=
  { website := "MLH", event_name := some "Web3 Jam", location := "Various" }

/-- Witness for C3 at a concrete input: two titles normalizing to the same
key and one distinct title. -/
theorem dedupe_keeps_first_per_key_witness :
    (∀ e ∈ [evAiHack, evAiHackDup, evWeb3Jam], (e.event_name).isSome = true) ∧
    ∃ out, dedupe [evAiHack, evAiHackDup, evWeb3Jam] = Except.ok out ∧
      List.Sublist out [evAiHack, evAiHackDup, evWeb3Jam] ∧
      out.Pairwise (fun a b => eventKey a ≠ eventKey b) ∧
      (∀ e ∈ [evAiHack, evAiHackDup, evWeb3Jam], ∃ e' ∈ out, eventKey e' = eventKey e) ∧
      (∀ e' ∈ out, [evAiHack, evAiHackDup, evWeb3Jam].find?
          (fun e => eventKey e == eventKey e') = some e') :=
  ⟨by decide, dedupe_keeps_first_per_key [evAiHack, evAiHackDup, evWeb3Jam] (by decide)⟩

/-- C4: the dedup step is idempotent on its success domain — re-deduping an
already deduped list returns it unchanged. -/
theorem dedupe_idempotent (l out : List Event) (h : dedupe l = Except.ok out) :
    dedupe out = Except.ok out := by
  have hnames : ∀ e ∈ l, (e.event_name).isSome = true :=
    dedupeGo_names l [] [] out h
  obtain ⟨out', h1, h2, _h3, h4, _h5, _h6⟩ := dedupeGo_spec l [] [] hnames
  have hd : dedupe l = Except.ok out' := by simpa [dedupe] using h1
  rw [hd] at h
  have hout : out' = out := Except.ok.inj h
  subst hout
  have hfix := dedupeGo_of_nodup out' [] []
    (fun e he => hnames e (h2.subset he)) h4 (by intro e _ hc; exact absurd hc (List.not_mem_nil _))
  simpa [dedupe] using hfix

/-- Witness for C4: deduping a two-element list with colliding keys gives a
singleton, and deduping that singleton is the identity. -/
theorem dedupe_idempotent_witness :
    dedupe [evAiHack, evAiHackDup] = Except.ok [evAiHack] ∧
    dedupe [evAiHack] = Except.ok [evAiHack] :=
  ⟨by decide, dedupe_idempotent [evAiHack, evAiHackDup] [evAiHack] (by decide)⟩

/-! ## Properties of the sort pass -/

/-- The relation the stable sort establishes between an earlier and a later
element of its output: the later one does not compare strictly less. -/
def stablyBefore (a b : Event) : Prop := ¬ jsSortCompare b a < 0

theorem startFalsy_compare (a b : Event) (ha : startFalsy a = true) :
    jsSortCompare a b = 1 := by
  simp [jsSortCompare, ha]

theorem parsed_not_falsy (e : Event) (x : Int) (h : parsedStart e = some x) :
    startFalsy e = false := by
  cases hs : e.start_date with
  | none => simp [parsedStart, hs] at h
  | some s =>
    simp only [parsedStart, hs] at h
    simp only [startFalsy, jsFalsy, hs]
    cases hb : s.isEmpty with
    | false => rfl
    | true =>
      rw [(String.isEmpty_iff s).mp hb] at h
      rw [show parseDate "" = none from by decide] at h
      exact absurd h (by simp)

theorem compare_neg_pos (a b : Event) (h : jsSortCompare a b < 0) :
    0 < jsSortCompare b a := by
  unfold jsSortCompare at *
  by_cases ha : startFalsy a = true
  · simp [ha] at h
  · by_cases hb : startFalsy b = true
    · simp [ha, hb]
    · cases hpa : parsedStart a with
      | none => simp [ha, hb, hpa] at h
      | some x =>
        cases hpb : parsedStart b with
        | none => simp [ha, hb, hpa, hpb] at h
        | some y =>
          simp [ha, hb, hpa, hpb] at h ⊢
          omega

theorem compare_trans_aux (x y b : Event) (h1 : jsSortCompare x y < 0)
    (h2 : ¬ jsSortCompare b y < 0) : ¬ jsSortCompare b x < 0 := by
  unfold jsSortCompare at *
  by_cases hx : startFalsy x = true
  · simp [hx] at h1
  · by_cases hy : startFalsy y = true
    · by_cases hb : startFalsy b = true
      · simp [hb]
      · simp [hb, hy] at h2
    · cases hpx : parsedStart x with
      | none => simp [hx, hy, hpx] at h1
      | some px =>
        cases hpy : parsedStart y with
        | none => simp [hx, hy, hpx, hpy] at h1
        | some py =>
          simp [hx, hy, hpx, hpy] at h1
          by_cases hb : startFalsy b = true
          · simp [hb]
          · cases hpb : parsedStart b with
            | none => simp [hb, hx, hpb]
            | some pb =>
              simp [hb, hy, hpy, hpb] at h2
              simp [hb, hx, hpx, hpb]
              omega

theorem mem_insertEvent (acc : List Event) (x z : Event) :
    z ∈ insertEvent acc x ↔ z = x ∨ z ∈ acc := by
  induction acc with
  | nil => simp [insertEvent]
  | cons y ys ih =>
    simp only [insertEvent]
    by_cases hlt : jsSortCompare x y < 0
    · rw [if_pos hlt]
      simp [List.mem_cons]
    · rw [if_neg hlt]
      simp [List.mem_cons, ih]
      tauto

theorem insertEvent_pairwise (acc : List Event) (x : Event)
    (h : acc.Pairwise stablyBefore) : (insertEvent acc x).Pairwise stablyBefore := by
  induction acc with
  | nil => simp [insertEvent, stablyBefore]
  | cons y ys ih =>
    obtain ⟨hy, hys⟩ := List.pairwise_cons.mp h
    simp only [insertEvent]
    by_cases hlt : jsSortCompare x y < 0
    · rw [if_pos hlt]
      refine List.pairwise_cons.mpr ⟨?_, h⟩
      intro z hz
      rcases List.mem_cons.mp hz with rfl | hz
      · have hpos := compare_neg_pos x z hlt
        unfold stablyBefore
        omega
      · exact compare_trans_aux x y z hlt (hy z hz)
    · rw [if_neg hlt]
      refine List.pairwise_cons.mpr ⟨?_, ih hys⟩
      intro z hz
      rcases (mem_insertEvent ys x z).mp hz with rfl | hz
      · exact hlt
      · exact hy z hz

theorem foldl_insert_pairwise (l : List Event) : ∀ acc : List Event,
    acc.Pairwise stablyBefore →
    (List.foldl insertEvent acc l).Pairwise stablyBefore := by
  induction l with
  | nil => intro acc h; simpa using h
  | cons a m ih => intro acc h; exact ih _ (insertEvent_pairwise acc a h)

theorem sortByDate_pairwise (l : List Event) : (sortByDate l).Pairwise stablyBefore :=
  foldl_insert_pairwise l [] (by simp)

theorem insertEvent_append (acc : List Event) (x : Event)
    (h : ∀ y ∈ acc, ¬ jsSortCompare x y < 0) : insertEvent acc x = acc ++ [x] := by
  induction acc with
  | nil => simp [insertEvent]
  | cons y ys ih =>
    simp only [insertEvent]
    rw [if_neg (h y (List.mem_cons_self y ys))]
    rw [ih (fun z hz => h z (List.mem_cons_of_mem y hz))]
    simp

theorem foldl_insert_fix (l : List Event) : ∀ acc : List Event,
    l.Pairwise stablyBefore →
    (∀ z ∈ l, ∀ y ∈ acc, ¬ jsSortCompare z y < 0) →
    List.foldl insertEvent acc l = acc ++ l := by
  induction l with
  | nil => intro acc _ _; simp
  | cons a m ih =>
    intro acc hp hc
    obtain ⟨ha, hm⟩ := List.pairwise_cons.mp hp
    have h1 : insertEvent acc a = acc ++ [a] :=
      insertEvent_append acc a (hc a (List.mem_cons_self a m))
    have h2 := ih (acc ++ [a]) hm (by
      intro z hz y hy
      rcases List.mem_append.mp hy with hy | hy
      · exact hc z (List.mem_cons_of_mem a hz) y hy
      · rw [List.mem_singleton.mp hy]
        exact ha z hz)
    calc List.foldl insertEvent acc (a :: m)
        = List.foldl insertEvent (insertEvent acc a) m := rfl
      _ = List.foldl insertEvent (acc ++ [a]) m := by rw [h1]
      _ = (acc ++ [a]) ++ m := h2
      _ = acc ++ a :: m := by simp

theorem sortByDate_idem (l : List Event) :
    sortByDate (sortByDate l) = sortByDate l := by
  have h := foldl_insert_fix (sortByDate l) [] (sortByDate_pairwise l)
    (by intro z _ y hy; exact absurd hy (List.not_mem_nil y))
  simpa [sortByDate] using h

theorem insertEvent_perm (acc : List Event) (x : Event) :
    List.Perm (insertEvent acc x) (x :: acc) := by
  induction acc with
  | nil => simp [insertEvent]
  | cons y ys ih =>
    simp only [insertEvent]
    by_cases hlt : jsSortCompare x y < 0
    · rw [if_pos hlt]
    · rw [if_neg hlt]
      exact (ih.cons y).trans (List.Perm.swap x y ys)

theorem foldl_insert_perm (l : List Event) : ∀ acc : List Event,
    List.Perm (List.foldl insertEvent acc l) (acc ++ l) := by
  induction l with
  | nil => intro acc; simp
  | cons a m ih =>
    intro acc
    refine (ih (insertEvent acc a)).trans ?_
    refine (((insertEvent_perm acc a).append_right m).trans ?_)
    simpa using (@List.perm_middle _ a acc m).symm

theorem sortByDate_perm (l : List Event) : List.Perm (sortByDate l) l := by
  simpa [sortByDate] using foldl_insert_perm l []

theorem insertEvent_filter_of_falsy (acc : List Event) (x : Event)
    (hx : startFalsy x = true) : insertEvent acc x = acc ++ [x] := by
  refine insertEvent_append acc x ?_
  intro y _
  rw [startFalsy_compare x y hx]
  omega

theorem insertEvent_filter_of_truthy (acc : List Event) (x : Event)
    (hx : startFalsy x = false) :
    (insertEvent acc x).filter (fun e => startFalsy e)
      = acc.filter (fun e => startFalsy e) := by
  induction acc with
  | nil => simp [insertEvent, hx]
  | cons y ys ih =>
    simp only [insertEvent]
    by_cases hlt : jsSortCompare x y < 0
    · rw [if_pos hlt]
      simp [List.filter_cons, hx]
    · rw [if_neg hlt]
      simp [List.filter_cons, ih]

theorem foldl_insert_filter (l : List Event) : ∀ acc : List Event,
    (List.foldl insertEvent acc l).filter (fun e => startFalsy e)
      = acc.filter (fun e => startFalsy e) ++ l.filter (fun e => startFalsy e) := by
  induction l with
  | nil => intro acc; simp
  | cons a m ih =>
    intro acc
    have h1 : List.foldl insertEvent acc (a :: m)
        = List.foldl insertEvent (insertEvent acc a) m := rfl
    rw [h1, ih]
    cases hx : startFalsy a with
    | true =>
      rw [insertEvent_filter_of_falsy acc a hx]
      simp [List.filter_append, List.filter_cons, hx]
    | false =>
      rw [insertEvent_filter_of_truthy acc a hx]
      simp [List.filter_cons, hx]

theorem sortByDate_filter (l : List Event) :
    (sortByDate l).filter (fun e => startFalsy e)
      = l.filter (fun e => startFalsy e) := by
  simpa [sortByDate] using foldl_insert_filter l []

def evNullDate : Event :=
  { website := "MLH", event_name := some "Null Date Hack", location := "Various" }

def evEmptyDate : Event :=
  { website := "MLH", event_name := some "Empty Date Hack",
    start_date := some "", location := "Various" }

/-- C5 counterexample: an event with a `null`/absent `start_date` does NOT
come after every event that has a `start_date`. `evEmptyDate` has a
`start_date` (the string `""`, as the MLH adapter produces for a card with
no date element), yet the sort leaves the null-dated event in front of it,
because the comparator treats the empty string as falsy exactly like null. -/
theorem sorter_null_before_dated_cex :
    sortByDate [evNullDate, evEmptyDate] = [evNullDate, evEmptyDate] ∧
    evNullDate.start_date = none ∧
    evEmptyDate.start_date = some "" ∧
    sortByDate [evNullDate, evEmptyDate] ≠ [evEmptyDate, evNullDate] := by
  exact ⟨by decide, by decide, by decide, by decide⟩

/-- C5 amended: the sort returns a permutation of its input; every event
whose `start_date` is null, absent or the empty string (the values the
comparator treats as falsy) comes after every other event; those falsy-
dated events keep their relative input order; whenever no event of the
input carries a present, non-empty, unparseable `start_date` (so the
comparator never produces the NaN tie under which ECMAScript leaves the
order implementation-defined), any two events with validly parsed dates
appear in ascending date order; and re-sorting the output reproduces it. -/
theorem sorter_spec_amended (l : List Event) :
    List.Perm (sortByDate l) l ∧
    (sortByDate l).Pairwise (fun a b => startFalsy a = true → startFalsy b = true) ∧
    (sortByDate l).filter (fun e => startFalsy e) = l.filter (fun e => startFalsy e) ∧
    ((∀ e ∈ l, startFalsy e = false → (parsedStart e).isSome = true) →
      (sortByDate l).Pairwise (fun a b => ∀ x y : Int,
        parsedStart a = some x → parsedStart b = some y → x ≤ y)) ∧
    sortByDate (sortByDate l) = sortByDate l := by
  refine ⟨sortByDate_perm l, ?_, sortByDate_filter l, ?_, sortByDate_idem l⟩
  · refine (sortByDate_pairwise l).imp ?_
    intro a b hab ha
    cases hb : startFalsy b with
    | true => rfl
    | false =>
      have hc : jsSortCompare b a = -1 := by simp [jsSortCompare, hb, ha]
      exact absurd (by rw [hc]; omega) hab
  · intro _hvalid
    refine (sortByDate_pairwise l).imp ?_
    intro a b hab x y hx hy
    have ha : startFalsy a = false := parsed_not_falsy a x hx
    have hb : startFalsy b = false := parsed_not_falsy b y hy
    have hc : jsSortCompare b a = y - x := by simp [jsSortCompare, hb, ha, hy, hx]
    rw [stablyBefore, hc] at hab
    omega

def evJanDate : Event :=
  { website := "Devpost", event_name := some "Jan Fest", start_date := some "2025-01-10" }

def evMayDate : Event :=
  { website := "Devpost", event_name := some "May Fest", start_date := some "2025-05-02" }

/-- Witness for C5 amended at a concrete NaN-free input: the hypothesis of
the ascending-dates conjunct holds (every non-falsy date parses) and the
conjunct follows by applying the theorem. -/
theorem sorter_spec_amended_witness :
    (∀ e ∈ [evMayDate, evNullDate, evJanDate],
      startFalsy e = false → (parsedStart e).isSome = true) ∧
    List.Perm (sortByDate [evMayDate, evNullDate, evJanDate])
      [evMayDate, evNullDate, evJanDate] ∧
    (sortByDate [evMayDate, evNullDate, evJanDate]).Pairwise (fun a b => ∀ x y : Int,
      parsedStart a = some x → parsedStart b = some y → x ≤ y) :=
  ⟨by decide, (sorter_spec_amended [evMayDate, evNullDate, evJanDate]).1,
    (sorter_spec_amended [evMayDate, evNullDate, evJanDate]).2.2.2.1 (by decide)⟩

def evTbaDate : Event :=
  { website := "Unstop", event_name := some "Mystery Jam",
    start_date := some "TBA", location := "Various" }

def evIsoDate : Event :=
  { website := "Unstop", event_name := some "Dated Jam",
    start_date := some "2025-01-01", location := "Various" }

def evNoDate : Event :=
  { website := "Unstop", event_name := some "Undated Jam", location := "Various" }

/-- C6 counterexample: an event with a present but unparseable `start_date`
(`"TBA"`) is NOT ordered like a no-date event. A no-date event is moved
after the validly dated one, but the unparseably dated event stays in front
of it: the comparator yields `NaN`, treated as `0`, so the stable sort
keeps the input order. -/
theorem sorter_invalid_date_cex :
    sortByDate [evTbaDate, evIsoDate] = [evTbaDate, evIsoDate] ∧
    sortByDate [evNoDate, evIsoDate] = [evIsoDate, evNoDate] ∧
    parseDate "TBA" = none ∧
    sortByDate [evTbaDate, evIsoDate] ≠ [evIsoDate, evTbaDate] := by
  exact ⟨by decide, by decide, by decide, by decide⟩

/-- C6 amended: an event whose `start_date` is a present, non-empty but
unparseable string compares as equal (comparator value `0`, from the NaN
rule) with every dated event, in both orders, so the stable sort leaves the
two in their input order instead of pushing the unparseable one last. -/
theorem sorter_invalid_date_amended (a b : Event) (s t : String)
    (ha : a.start_date = some s) (hs : s.isEmpty = false) (hps : parseDate s = none)
    (hb : b.start_date = some t) (hpt : (parseDate t).isSome = true) :
    jsSortCompare a b = 0 ∧ jsSortCompare b a = 0 ∧
    sortByDate [a, b] = [a, b] ∧ sortByDate [b, a] = [b, a] := by
  obtain ⟨pt, hpt'⟩ := Option.isSome_iff_exists.mp hpt
  have hfa : startFalsy a = false := by simp [startFalsy, jsFalsy, ha, hs]
  have hfb : startFalsy b = false :=
    parsed_not_falsy b pt (by simp [parsedStart, hb, hpt'])
  have hpa : parsedStart a = none := by simp [parsedStart, ha, hps]
  have hpb : parsedStart b = some pt := by simp [parsedStart, hb, hpt']
  have hab : jsSortCompare a b = 0 := by simp [jsSortCompare, hfa, hfb, hpa, hpb]
  have hba : jsSortCompare b a = 0 := by simp [jsSortCompare, hfa, hfb, hpa, hpb]
  refine ⟨hab, hba, ?_, ?_⟩
  · show insertEvent (insertEvent [] a) b = [a, b]
    simp [insertEvent, hba]
  · show insertEvent (insertEvent [] b) a = [b, a]
    simp [insertEvent, hab]

/-- Witness for C6 amended at the concrete pair `"TBA"` / `"2025-01-01"`. -/
theorem sorter_invalid_date_amended_witness :
    jsSortCompare evTbaDate evIsoDate = 0 ∧ jsSortCompare evIsoDate evTbaDate = 0 ∧
    sortByDate [evTbaDate, evIsoDate] = [evTbaDate, evIsoDate] ∧
    sortByDate [evIsoDate, evTbaDate] = [evIsoDate, evTbaDate] :=
  sorter_invalid_date_amended evTbaDate evIsoDate "TBA" "2025-01-01"
    (by decide) (by decide) (by decide) (by decide) (by decide)

/-! ## Properties of the aggregator -/

theorem agg_events (rs : List (Except String (List Event))) :
    ∀ (acc : List Event) (st : AggStats),
    (List.foldl aggStep (acc, st) rs).1 = acc ++ (rs.map contribution).flatten := by
  induction rs with
  | nil => intro acc st; simp
  | cons r rest ih =>
    intro acc st
    cases r with
    | ok evs =>
      by_cases hlen : 0 < evs.length
      · have h1 : aggStep (acc, st) (.ok evs) = (acc ++ evs, ⟨st.success + 1, st.failed⟩) := by
          simp [aggStep, hlen]
        simp only [List.foldl_cons, h1, ih]
        simp [contribution]
      · have h0 : evs = [] := List.length_eq_zero.mp (by omega)
        have h1 : aggStep (acc, st) (.ok evs) = (acc, ⟨st.success, st.failed + 1⟩) := by
          simp [aggStep, hlen]
        simp only [List.foldl_cons, h1, ih]
        simp [contribution, h0]
    | error e =>
      have h1 : aggStep (acc, st) (.error e) = (acc, ⟨st.success, st.failed + 1⟩) := by
        simp [aggStep]
      simp only [List.foldl_cons, h1, ih]
      simp [contribution]

theorem agg_success (rs : List (Except String (List Event))) :
    ∀ (acc : List Event) (st : AggStats),
    (List.foldl aggStep (acc, st) rs).2.success
      = st.success + rs.countP isContributing := by
  induction rs with
  | nil => intro acc st; simp
  | cons r rest ih =>
    intro acc st
    cases r with
    | ok evs =>
      by_cases hlen : 0 < evs.length
      · have h1 : aggStep (acc, st) (.ok evs) = (acc ++ evs, ⟨st.success + 1, st.failed⟩) := by
          simp [aggStep, hlen]
        simp only [List.foldl_cons, h1, ih]
        simp [isContributing, List.countP_cons, hlen]
        omega
      · have h1 : aggStep (acc, st) (.ok evs) = (acc, ⟨st.success, st.failed + 1⟩) := by
          simp [aggStep, hlen]
        simp only [List.foldl_cons, h1, ih]
        simp [isContributing, List.countP_cons, hlen]
    | error e =>
      have h1 : aggStep (acc, st) (.error e) = (acc, ⟨st.success, st.failed + 1⟩) := by
        simp [aggStep]
      simp only [List.foldl_cons, h1, ih]
      simp [isContributing, List.countP_cons]

theorem agg_failed (rs : List (Except String (List Event))) :
    ∀ (acc : List Event) (st : AggStats),
    (List.foldl aggStep (acc, st) rs).2.failed
      = st.failed + rs.countP (fun r => !isContributing r) := by
  induction rs with
  | nil => intro acc st; simp
  | cons r rest ih =>
    intro acc st
    cases r with
    | ok evs =>
      by_cases hlen : 0 < evs.length
      · have h1 : aggStep (acc, st) (.ok evs) = (acc ++ evs, ⟨st.success + 1, st.failed⟩) := by
          simp [aggStep, hlen]
        simp only [List.foldl_cons, h1, ih]
        simp [isContributing, List.countP_cons, hlen]
      · have h1 : aggStep (acc, st) (.ok evs) = (acc, ⟨st.success, st.failed + 1⟩) := by
          simp [aggStep, hlen]
        simp only [List.foldl_cons, h1, ih]
        simp [isContributing, List.countP_cons, hlen]
        omega
    | error e =>
      have h1 : aggStep (acc, st) (.error e) = (acc, ⟨st.success, st.failed + 1⟩) := by
        simp [aggStep]
      simp only [List.foldl_cons, h1, ih]
      simp [isContributing, List.countP_cons]
      omega

/-- C7: for every list of settled adapter outcomes, the aggregator counts
an adapter as a success and concatenates its events exactly when it
fulfilled with at least one event, and counts a failure otherwise (both
rejected and fulfilled-but-empty outcomes); in particular, for outcomes
[fulfilled with 3 events, rejected, fulfilled with 0 events] it returns
those 3 events with success count 1 and failure count 2. -/
theorem aggregate_counts_contributing (rs : List (Except String (List Event)))
    (e1 e2 e3 : Event) (s : String) :
    (aggregate rs).2.success = rs.countP isContributing ∧
    (aggregate rs).2.failed = rs.countP (fun r => !isContributing r) ∧
    (aggregate rs).1 = (rs.map contribution).flatten ∧
    aggregate [.ok [e1, e2, e3], .error s, .ok []] = ([e1, e2, e3], ⟨1, 2⟩) := by
    refine ⟨?_, ?_, ?_, ?_⟩
    · simpa using agg_success rs [] ⟨0, 0⟩
    · simpa using agg_failed rs [] ⟨0, 0⟩
    · simpa using agg_events rs [] ⟨0, 0⟩
    · simp [aggregate, aggStep]

/-- C10: however the six registered adapters settle, the statistics
`getAllEvents` reports satisfy success + failed = 6 — each adapter is
counted exactly once, in exactly one of the two counters. -/
theorem stats_success_failed_sum_six (r1 r2 r3 r4 r5 r6 : Except String (List Event)) :
    (getAllEventsStats r1 r2 r3 r4 r5 r6).success
      + (getAllEventsStats r1 r2 r3 r4 r5 r6).failed = 6 := by
  have hs := agg_success [r1, r2, r3, r4, r5, r6] [] ⟨0, 0⟩
  have hf := agg_failed [r1, r2, r3, r4, r5, r6] [] ⟨0, 0⟩
  have hlen := List.length_eq_countP_add_countP isContributing [r1, r2, r3, r4, r5, r6]
  have h6 : ([r1, r2, r3, r4, r5, r6] : List (Except String (List Event))).length = 6 := rfl
  rw [h6] at hlen
  have hcong : List.countP (fun a => decide ¬(isContributing a = true)) [r1, r2, r3, r4, r5, r6]
      = List.countP (fun r => !isContributing r) [r1, r2, r3, r4, r5, r6] :=
    List.countP_congr (fun a _ => by simp)
  simp only [getAllEventsStats, aggregate] at *
  omega

/-! ## Adapter-level claims -/

def unstopEmptyTitleItem : UnstopItem := { title := some "", public_url := "/x" }

def evUnstopEmptyName : Event :=
  { website := "Unstop", event_name := some "",
    event_link := some "https://unstop.com/x",
    location := "Various", tags := [some "Hackathon", none] }

/-- C1 fails on the code: the Unstop mapping (like Devpost, Dorahacks and
HackerEarth) has no title filter, so a record whose upstream title is the
empty string is emitted, survives dedup (its key is `""`) and the sort, and
reaches the final pipeline output with an empty `event_name`. Only the MLH
and Devfolio adapters check for a title before pushing a record. -/
theorem pipeline_output_empty_title_bug :
    getAllEvents (.ok []) (.ok (scrapeUnstop (.ok (some [unstopEmptyTitleItem]))))
        (.ok []) (.ok []) (.ok []) (.ok [])
      = Except.ok [evUnstopEmptyName] ∧ evUnstopEmptyName.event_name = some "" := by
  exact ⟨by decide, by decide⟩

def rssNoTitleItem : RssItem := {}

/-- C2 fails on the code: when an adapter fulfills with a record lacking a
title (here Devpost mapping an RSS item with no `title` field), the dedup
loop of `getAllEvents` evaluates `event.event_name.toLowerCase()` on
`undefined`, throwing a `TypeError` — the pipeline's promise rejects
instead of returning a list. -/
theorem getAllEvents_rejects_on_missing_title :
    getAllEvents (.ok (scrapeDevpost (.ok [rssNoTitleItem]) (.error "unused")))
        (.ok []) (.ok []) (.ok []) (.ok []) (.ok [])
      = Except.error "TypeError: Cannot read properties of undefined" := by
  decide

def unstopPlainItem : UnstopItem := { title := some "Hack", public_url := "/h" }

/-- C8 counterexample: the Unstop adapter applies no cap to the mapped
payload — a fulfilled payload of 21 items yields 21 events, refuting the
at-most-20 bound claimed for every adapter and every payload. -/
theorem unstop_uncapped_cex :
    ¬ (scrapeUnstop (.ok (some (List.replicate 21 unstopPlainItem)))).length ≤ 20 := by
  decide

def doraPlainNode : DoraNode := { title := some "Buidl", slug := "b" }

/-- C8 amended: Devpost (both transports), HackerEarth, Devfolio and MLH
cap their mapped output at 20 events regardless of payload size; Unstop
applies no client-side cap and returns one event per payload item; and
Dorahacks applies no client-side cap either — a payload of 21 nodes with
absent date fields (on which the engine completes the mapping) yields 21
events. Both merely request 20 from upstream. -/
theorem adapter_caps_amended (rss : List RssItem) (api : List ApiHack)
    (uns : List UnstopItem) (dev : List DevfolioCard)
    (he : List HEItem) (mlh : List MlhCard) :
    (devpostRssMap rss).length ≤ 20 ∧
    (devpostApiMap api).length ≤ 20 ∧
    (heMap he).length ≤ 20 ∧
    (devfolioMap dev).length ≤ 20 ∧
    (mlhMap mlh).length ≤ 20 ∧
    (unstopMap uns).length = uns.length ∧
    (dorahacksMap (List.replicate 21 doraPlainNode)).length = 21 := by
  refine ⟨?_, ?_, ?_, ?_, ?_, ?_, ?_⟩
  · simp [devpostRssMap]
  · simp [devpostApiMap]
  · simp [heMap]
  · calc (devfolioMap dev).length
        ≤ (dev.take 20).length := List.length_filterMap_le _ _
      _ ≤ 20 := by simp
  · calc (mlhMap mlh).length
        = ((mlh.take 20).filter fun c => !c.title.isEmpty).length := by
          simp [mlhMap]
      _ ≤ (mlh.take 20).length := List.length_filter_le _ _
      _ ≤ 20 := by simp
  · simp [unstopMap]
  · decide

def evSoloHack : Event := { website := "Devpost", event_name := some "Solo Hack" }

/-- C9: every adapter converts a failed transport into an ordinary empty
result instead of propagating the error (the Devpost adapter only after its
fallback transport also failed), and a single adapter outage — Unstop here
— never aborts the run: with the other adapters fulfilling with any event
lists whose records carry titles, `getAllEvents` still returns a list. -/
theorem adapters_catch_transport_errors (s1 s2 s3 s4 s5 s6 s7 : String) :
    scrapeDevpost (.error s1) (.error s2) = [] ∧
    scrapeUnstop (.error s3) = [] ∧
    scrapeDorahacks (.error s4) = [] ∧
    scrapeDevfolio (.error s5) = [] ∧
    scrapeHackerEarth (.error s6) = [] ∧
    getMLHEvents (.error s7) = [] ∧
    (∀ l2 l3 l4 l5 l6 : List Event,
      (∀ e ∈ l2 ++ l3 ++ l4 ++ l5 ++ l6, (e.event_name).isSome = true) →
      ∃ out, getAllEvents (.ok (scrapeUnstop (.error s3))) (.ok l2) (.ok l3)
          (.ok l4) (.ok l5) (.ok l6) = Except.ok out) := by
  refine ⟨rfl, rfl, rfl, rfl, rfl, rfl, ?_⟩
  intro l2 l3 l4 l5 l6 h
  have hagg : (aggregate [Except.ok (scrapeUnstop (.error s3)), .ok l2, .ok l3,
      .ok l4, .ok l5, .ok l6]).1 = l2 ++ (l3 ++ (l4 ++ (l5 ++ l6))) := by
    have h0 := agg_events [Except.ok (scrapeUnstop (.error s3)), .ok l2, .ok l3,
      .ok l4, .ok l5, .ok l6] [] ⟨0, 0⟩
    simpa [aggregate, contribution, scrapeUnstop] using h0
  have hnames : ∀ e ∈ (aggregate [Except.ok (scrapeUnstop (.error s3)), .ok l2, .ok l3,
      .ok l4, .ok l5, .ok l6]).1, (e.event_name).isSome = true := by
    intro e he
    rw [hagg] at he
    apply h
    simp only [List.mem_append] at he ⊢
    tauto
  obtain ⟨out, h1, _, _, _, _, _⟩ := dedupeGo_spec
    ((aggregate [Except.ok (scrapeUnstop (.error s3)), .ok l2, .ok l3,
      .ok l4, .ok l5, .ok l6]).1) [] [] hnames
  have hd : dedupe (aggregate [Except.ok (scrapeUnstop (.error s3)), .ok l2, .ok l3,
      .ok l4, .ok l5, .ok l6]).1 = Except.ok out := by
    simpa [dedupe] using h1
  exact ⟨sortByDate out, by simp [getAllEvents, hd]⟩

/-- Witness for C9 at concrete inputs: a failed Unstop transport yields an
empty list, and the pipeline still succeeds alongside one fulfilled
adapter. -/
theorem adapters_catch_transport_errors_witness :
    scrapeUnstop (Except.error "boom") = [] ∧
    (∃ out, getAllEvents (.ok (scrapeUnstop (.error "boom"))) (.ok [evSoloHack])
        (.ok []) (.ok []) (.ok []) (.ok []) = Except.ok out) := by
  have h := adapters_catch_transport_errors "boom" "boom" "boom" "boom" "boom" "boom" "boom"
  exact ⟨h.2.1, h.2.2.2.2.2.2 [evSoloHack] [] [] [] [] (by decide)⟩

end EventAutomation
